import Mathlib

set_option autoImplicit false

/-!
Shallow embedding of the account-slice reducers and the ERC-20 log/call
parsing utilities of the wallet extension, together with proofs of the
specification's claims about them.

JS objects keyed by strings are embedded as insertion-ordered association
lists with unique keys; TS bigint is embedded as Int; the process-wide
mutable default-name pool is threaded explicitly through every operation
that can consume a name from it.
-/

namespace Tally

/-- A blockchain network descriptor; the account slice treats it as opaque
payload data, so only a tag field is modelled. -/
structure Network where
  tag : String
  deriving DecidableEq, Repr

/-- An asset, reduced to the only field the account slice ever reads from it:
its symbol. -/
structure AnyAsset where
  symbol : String
  deriving DecidableEq, Repr

/-- An asset together with an arbitrary-precision integer amount (TS bigint). -/
structure AnyAssetAmount where
  asset : AnyAsset
  amount : Int
  deriving DecidableEq, Repr

/-- One balance snapshot for one address, as delivered by polling services. -/
structure AccountBalance where
  address : String
  network : Network
  assetAmount : AnyAssetAmount
  retrievedAt : Nat
  dataSource : String
  deriving DecidableEq, Repr

/-- Resolved ENS name and avatar data attached to an account record. -/
structure ENSData where
  name : Option String
  avatarURL : Option String
  deriving DecidableEq, Repr

/-- Per-account data tracked by the account slice (AccountData in the source).
balances is a JS object keyed by asset symbol, embedded as an
insertion-ordered association list. -/
structure AccountData where
  address : String
  network : Network
  balances : List (String × AccountBalance)
  ens : ENSData
  defaultName : String
  defaultAvatar : String
  deriving DecidableEq, Repr

/-- One entry of accountsData: either full account data or the "loading"
string sentinel. -/
inductive AccountEntry where
  | loading
  | ready (data : AccountData)
  deriving DecidableEq, Repr

/-- The combined portfolio view, recomputed in full on every balance update. -/
structure CombinedAccountData where
  totalMainCurrencyValue : Option String
  assets : List AnyAssetAmount
  deriving DecidableEq, Repr

/-- An address paired with a network. -/
structure AddressOnNetwork where
  address : String
  network : Network
  deriving DecidableEq, Repr

/-- The state of the account slice (AccountState in the source). The three
optional fields are never touched by the reducers but are carried along by
the whole-state spreads. -/
structure AccountState where
  account : Option AddressOnNetwork := none
  accountLoading : Option String := none
  hasAccountError : Option Bool := none
  accountsData : List (String × AccountEntry)
  combinedData : CombinedAccountData
  deriving DecidableEq, Repr

/-- Lookup of a key in a JS object embedded as an association list. -/
def alistLookup {α : Type} : List (String × α) → String → Option α
  | [], _ => none
  | p :: rest, k => if p.1 = k then some p.2 else alistLookup rest k

/-- JS object assignment obj[k] = v: replace the entry in place when the key
is present, append it otherwise. -/
def alistInsert {α : Type} : List (String × α) → String → α → List (String × α)
  | [], k, v => [(k, v)]
  | p :: rest, k, v => if p.1 = k then (k, v) :: rest else p :: alistInsert rest k v

/-- JS rest-destructuring removal of one key from an object. -/
def alistRemove {α : Type} (l : List (String × α)) (k : String) : List (String × α) :=
  l.filter (fun p => p.1 ≠ k)

/-- ASCII lowercasing of one character. -/
def lowerChar (c : Char) : Char :=
  if h : 65 ≤ c.toNat ∧ c.toNat ≤ 90 then
    Char.ofNatAux (c.toNat + 32) (Or.inl (by omega))
  else c

/-- ASCII lowercasing of a string, character by character. -/
def lowerString (s : String) : String :=
  ⟨s.data.map lowerChar⟩

/-- Modelled from the spec: normalizeEVMAddress (imported from lib/utils,
which is not among the sources) produces the canonical lowercase hex form of
an address used as the unique account key. -/
def normalizeEVMAddress (address : String) : String :=
  lowerString address

/-- Numeric value of one hexadecimal digit character (0 for any other
character). -/
def hexDigitVal (c : Char) : Nat :=
  if 48 ≤ c.toNat ∧ c.toNat ≤ 57 then c.toNat - 48
  else if 97 ≤ c.toNat ∧ c.toNat ≤ 102 then c.toNat - 87
  else if 65 ≤ c.toNat ∧ c.toNat ≤ 70 then c.toNat - 55
  else 0

/-- JS BigInt(address) on a 0x-prefixed hex string: the address read as a
large unsigned integer. -/
def addressAsNat (address : String) : Nat :=
  (match address.data with
   | '0' :: 'x' :: rest => rest
   | cs => cs).foldl (fun acc c => acc * 16 + hexDigitVal c) 0

/-- The initial contents of the process-wide default name pool
(availableDefaultNames in the source). -/
def availableDefaultNames : List String :=
  ["Phoenix", "Matilda", "Sirius", "Topa", "Atos", "Sport", "Lola", "Foz"]

/-- newAccountData from the source. The process-wide mutable pool is threaded
explicitly: the function receives the pool as it stands and returns it after
the splice-then-unshift mutation that moves the selected name to the front. -/
def newAccountData (address : String) (network : Network)
    (existingAccountsCount : Nat) (pool : List String) : AccountData × List String :=
  let defaultNameIndex :=
    existingAccountsCount % pool.length +
      addressAsNat address % (pool.length - existingAccountsCount % pool.length)
  let defaultAccountName := pool.getD defaultNameIndex ""
  let newPool := defaultAccountName :: pool.eraseIdx defaultNameIndex
  let defaultAccountAvatar :=
    "./images/avatars/" ++ lowerString defaultAccountName ++ "@2x.png"
  (⟨address, network, [], ⟨none, none⟩, defaultAccountName, defaultAccountAvatar⟩,
   newPool)

/-- getOrCreateAccountData from the source: a loading entry is materialized
through newAccountData, an existing record is returned unchanged (the pool is
only consumed in the first case). -/
def getOrCreateAccountData (data : AccountEntry) (account : String)
    (network : Network) (existingAccountsCount : Nat) (pool : List String) :
    AccountData × List String :=
  match data with
  | .loading => newAccountData account network existingAccountsCount pool
  | .ready d => (d, pool)

/-- The initial state of the account slice. -/
def initialState : AccountState :=
  { accountsData := []
    combinedData := { totalMainCurrencyValue := some "", assets := [] } }

/-- The loadAccount reducer: both the "loading" sentinel and a full record
are truthy, so any existing entry short-circuits to the unchanged state. -/
def loadAccount (state : AccountState) (accountToLoad : String) : AccountState :=
  let accountKey := normalizeEVMAddress accountToLoad
  match alistLookup state.accountsData accountKey with
  | some _ => state
  | none =>
      { state with accountsData := alistInsert state.accountsData accountKey .loading }

/-- The deleteAccount reducer. The source normalizes the already-normalized
key a second time in its guard; the embedding keeps that double application. -/
def deleteAccount (state : AccountState) (accountToRemove : String) : AccountState :=
  let keyToRemove := normalizeEVMAddress accountToRemove
  match alistLookup state.accountsData (normalizeEVMAddress keyToRemove) with
  | none => state
  | some _ =>
      { state with accountsData := alistRemove state.accountsData keyToRemove }

/-- One iteration of the forEach loop in updateAccountBalance, threading the
name pool: a missing entry is ignored, a full record gets the balance merged
in by symbol, and a loading entry is replaced by a freshly generated record
seeded with exactly this balance. -/
def applyBalanceUpdate (st : List String × AccountState)
    (updatedAccountBalance : AccountBalance) : List String × AccountState :=
  let pool := st.1
  let s := st.2
  let updatedAccountKey := normalizeEVMAddress updatedAccountBalance.address
  let updatedAssetSymbol := updatedAccountBalance.assetAmount.asset.symbol
  match alistLookup s.accountsData updatedAccountKey with
  | none => (pool, s)
  | some (.ready existing) =>
      let entry : AccountEntry := .ready { existing with
        balances := alistInsert existing.balances updatedAssetSymbol updatedAccountBalance }
      (pool, { s with accountsData := alistInsert s.accountsData updatedAccountKey entry })
  | some .loading =>
      let cnt := (alistRemove s.accountsData updatedAccountKey).length
      let made := newAccountData updatedAccountKey updatedAccountBalance.network cnt pool
      let entry : AccountEntry := .ready { made.1 with
        balances := [(updatedAssetSymbol, updatedAccountBalance)] }
      (made.2, { s with accountsData := alistInsert s.accountsData updatedAccountKey entry })

/-- Flatten every non-loading record's balances into one list of asset
amounts (the combinedAccountBalances computation in the source; its final
.filter keeps every element, because the amounts are objects and objects are
truthy). -/
def combinedAccountBalances (accountsData : List (String × AccountEntry)) :
    List AnyAssetAmount :=
  accountsData.flatMap (fun p =>
    match p.2 with
    | .loading => []
    | .ready ad => ad.balances.map (fun b => b.2.assetAmount))

/-- One step of the grouping reduce at the end of updateAccountBalance: the
accumulator object is keyed by asset symbol and the stored amount is
(acc[symbol]?.amount || 0n) plus the incoming amount, which coincides with
reading 0 for an absent symbol. -/
def groupStep (acc : List (String × AnyAssetAmount)) (a : AnyAssetAmount) :
    List (String × AnyAssetAmount) :=
  let prev :=
    match alistLookup acc a.asset.symbol with
    | some existing => existing.amount
    | none => 0
  alistInsert acc a.asset.symbol { a with amount := prev + a.amount }

/-- The grouping reduce followed by Object.values. -/
def combineAssetAmounts (amounts : List AnyAssetAmount) : List AnyAssetAmount :=
  (amounts.foldl groupStep []).map (fun p => p.2)

/-- The updateAccountBalance reducer: apply every balance update in order,
then recompute combinedData.assets from scratch. -/
def updateAccountBalance (pool : List String) (state : AccountState)
    (accountsWithBalances : List AccountBalance) : List String × AccountState :=
  let stepped := accountsWithBalances.foldl applyBalanceUpdate (pool, state)
  (stepped.1,
   { stepped.2 with combinedData :=
       { stepped.2.combinedData with
         assets := combineAssetAmounts (combinedAccountBalances stepped.2.accountsData) } })

/-- The updateAccountName reducer, threading the name pool. -/
def updateAccountName (pool : List String) (state : AccountState)
    (address : String) (network : Network) (name : String) :
    List String × AccountState :=
  let accountKey := normalizeEVMAddress address
  match alistLookup state.accountsData accountKey with
  | none => (pool, state)
  | some entry =>
      let cnt := (alistRemove state.accountsData accountKey).length
      let made := getOrCreateAccountData entry accountKey network cnt pool
      let updated : AccountEntry :=
        .ready { made.1 with ens := { made.1.ens with name := some name } }
      (made.2,
       { state with accountsData := alistInsert state.accountsData accountKey updated })

/-- The updateENSAvatar reducer, threading the name pool. -/
def updateENSAvatar (pool : List String) (state : AccountState)
    (address : String) (network : Network) (avatar : String) :
    List String × AccountState :=
  let accountKey := normalizeEVMAddress address
  match alistLookup state.accountsData accountKey with
  | none => (pool, state)
  | some entry =>
      let cnt := (alistRemove state.accountsData accountKey).length
      let made := getOrCreateAccountData entry accountKey network cnt pool
      let updated : AccountEntry :=
        .ready { made.1 with ens := { made.1.ens with avatarURL := some avatar } }
      (made.2,
       { state with accountsData := alistInsert state.accountsData accountKey updated })

/-- Total amount carried for one asset symbol by a list of asset amounts. -/
def amountForSymbol (sym : String) (amounts : List AnyAssetAmount) : Int :=
  ((amounts.filter (fun a => a.asset.symbol = sym)).map (fun a => a.amount)).sum

/-- Total amount carried for one asset symbol by one accountsData entry:
zero for the loading sentinel, the balances' contribution otherwise. -/
def entryAmountForSymbol (sym : String) (e : AccountEntry) : Int :=
  match e with
  | .loading => 0
  | .ready ad => amountForSymbol sym (ad.balances.map (fun b => b.2.assetAmount))

/-- The generated display identity visible in one optional accountsData
entry: present exactly for full records. -/
def entryIdentity : Option AccountEntry → Option (String × String)
  | some (.ready d) => some (d.defaultName, d.defaultAvatar)
  | _ => none

/-- Amount stored in the grouping accumulator for a symbol, 0 when absent. -/
def accAmount (acc : List (String × AnyAssetAmount)) (sym : String) : Int :=
  match alistLookup acc sym with
  | some a => a.amount
  | none => 0

/-- Iterated account creation: fold newAccountData over a list of
(address, network, existing-count) requests, tracking only the pool. -/
def runCreations (pool : List String) (reqs : List (String × Network × Nat)) :
    List String :=
  reqs.foldl (fun p r => (newAccountData r.1 r.2.1 r.2.2 p).2) pool

/-- A raw EVM log entry (EVMLog in the source's networks module). -/
structure EVMLog where
  contractAddress : String
  data : String
  topics : List String
  deriving DecidableEq, Repr

/-- The fields that the external ethers decodeEventLog call exposes for the
ERC-20 Transfer event; each may be absent, and the BigNumber amount is
already taken to Int (the toBigInt conversion). -/
structure DecodedTransferEvent where
  fromAddr : Option String
  toAddr : Option String
  amount : Option Int
  deriving DecidableEq, Repr

/-- Information bundle from an ostensible ERC-20 transfer log. -/
structure ERC20TransferLog where
  contractAddress : String
  amount : Int
  senderAddress : String
  recipientAddress : String
  deriving DecidableEq, Repr

/-- parseLogsForERC20Transfers from the source. The external call
ERC20_INTERFACE.decodeEventLog(Transfer, data, topics) is abstracted as the
decode argument; none models a throw, which the try/catch turns into
undefined, and the final filter drops the undefined entries. -/
def parseLogsForERC20Transfers
    (decode : String → List String → Option DecodedTransferEvent)
    (logs : List EVMLog) : List ERC20TransferLog :=
  (logs.map (fun l =>
    match decode l.data l.topics with
    | none => none
    | some decoded =>
        match decoded.toAddr, decoded.fromAddr, decoded.amount with
        | some t, some f, some a =>
            some { contractAddress := l.contractAddress, amount := a,
                   senderAddress := f, recipientAddress := t }
        | _, _, _ => none)).filterMap id

/-- Specification-side description of the record produced for one log:
decode it, require the from, to and amount fields to all be present, and
package them with the log's contract address. -/
def transferRecordFor
    (decode : String → List String → Option DecodedTransferEvent)
    (l : EVMLog) : Option ERC20TransferLog :=
  match decode l.data l.topics with
  | none => none
  | some decoded =>
      match decoded.toAddr, decoded.fromAddr, decoded.amount with
      | some t, some f, some a =>
          some { contractAddress := l.contractAddress, amount := a,
                 senderAddress := f, recipientAddress := t }
      | _, _, _ => none

/-- An ABI fragment: a function signature or an event signature. -/
inductive Fragment where
  | functionSig (sig : String)
  | eventSig (sig : String)
  deriving DecidableEq, Repr

/-- ERC20_FUNCTIONS from the source, in Object.values order. -/
def ERC20_FUNCTIONS : List Fragment :=
  [.functionSig "allowance(address owner, address spender) view returns (uint256)",
   .functionSig "approve(address spender, uint256 value) returns (bool)",
   .functionSig "balanceOf(address owner) view returns (uint256)",
   .functionSig "decimals() view returns (uint8)",
   .functionSig "name() view returns (string)",
   .functionSig "symbol() view returns (string)",
   .functionSig "totalSupply() view returns (uint256)",
   .functionSig "transfer(address to, uint amount) returns (bool)",
   .functionSig "transferFrom(address from, address to, uint amount) returns (bool)"]

/-- ERC20_EVENTS from the source. -/
def ERC20_EVENTS : List Fragment :=
  [.eventSig "Transfer(address indexed from, address indexed to, uint amount)",
   .eventSig "Approval(address indexed owner, address indexed spender, uint amount)"]

/-- ERC20_ABI from the source: functions then events. -/
def ERC20_ABI : List Fragment :=
  ERC20_FUNCTIONS ++ ERC20_EVENTS

/-- ERC2612_FUNCTIONS from the source. -/
def ERC2612_FUNCTIONS : List Fragment :=
  [.functionSig "permit(address owner, address spender, uint256 value, uint256 deadline, uint8 v, bytes32 r, bytes32 s)",
   .functionSig "nonces(address owner) view returns (uint256)",
   .functionSig "DOMAIN_SEPARATOR() view returns (bytes32)"]

/-- ERC2612_ABI from the source: the ERC-20 ABI extended with the permit
family. -/
def ERC2612_ABI : List Fragment :=
  ERC20_ABI ++ ERC2612_FUNCTIONS

/-- An ethers Interface, embedded as the ABI it was constructed from. -/
structure EthersInterface where
  abi : List Fragment
  deriving DecidableEq, Repr

/-- ERC20_INTERFACE from the source. -/
def ERC20_INTERFACE : EthersInterface :=
  ⟨ERC20_ABI⟩

/-- ERC2612_INTERFACE from the source. -/
def ERC2612_INTERFACE : EthersInterface :=
  ⟨ERC2612_ABI⟩

/-- The function fragments of an interface, in ABI order. -/
def interfaceFunctions (iface : EthersInterface) : List String :=
  iface.abi.filterMap (fun fr =>
    match fr with
    | .functionSig s => some s
    | .eventSig _ => none)

/-- A minimal model of an ethers TransactionDescription; only its existence
matters to the claims. -/
structure TransactionDescription where
  name : String
  deriving DecidableEq, Repr

/-- Modelled from the spec: the external ethers Interface.parseTransaction
matches call data against the interface's function fragments and throws when
none decodes; the per-fragment decode is abstracted as tryFragment, and none
models the throw. -/
def parseTransaction (iface : EthersInterface)
    (tryFragment : String → String → Option TransactionDescription)
    (data : String) : Option TransactionDescription :=
  (interfaceFunctions iface).findSome? (fun sig => tryFragment sig data)

/-- parseERC20Tx from the source: a try/catch around
ERC20_INTERFACE.parseTransaction that returns undefined on a throw. -/
def parseERC20Tx (tryFragment : String → String → Option TransactionDescription)
    (input : String) : Option TransactionDescription :=
  parseTransaction ERC20_INTERFACE tryFragment input

/-- A decode oracle that succeeds exactly on the ERC-2612 permit fragment,
mimicking call data whose selector is permit's. -/
def permitOnlyDecoder (sig : String) (_data : String) :
    Option TransactionDescription :=
  if sig = "permit(address owner, address spender, uint256 value, uint256 deadline, uint8 v, bytes32 r, bytes32 s)"
  then some ⟨"permit"⟩ else none

/-- A fixed network used by concrete witnesses. -/
def testNetwork : Network :=
  ⟨"Ethereum"⟩

/-- A fixed balance snapshot for address 0xaa used by concrete witnesses. -/
def testBalance : AccountBalance :=
  { address := "0xaa", network := testNetwork,
    assetAmount := { asset := ⟨"ETH"⟩, amount := 17 },
    retrievedAt := 0, dataSource := "alchemy" }

/-- A state tracking address 0xaa in loading state only. -/
def testLoadingState : AccountState :=
  { initialState with accountsData := [("0xaa", .loading)] }

/-- A concrete full record for address 0xaa. -/
def testReadyData : AccountData :=
  (newAccountData "0xaa" testNetwork 0 availableDefaultNames).1

/-- A state tracking address 0xaa as a full record. -/
def testReadyState : AccountState :=
  { initialState with accountsData := [("0xaa", .ready testReadyData)] }

theorem alistLookup_insert_self {α : Type} (l : List (String × α)) (k : String) (v : α) :
    alistLookup (alistInsert l k v) k = some v := by
  induction l with
  | nil => simp [alistInsert, alistLookup]
  | cons p rest ih =>
      by_cases h : p.1 = k <;> simp [alistInsert, alistLookup, h, ih]

theorem alistLookup_insert_of_ne {α : Type} (l : List (String × α)) (k : String) (v : α)
    (k' : String) (h : k' ≠ k) :
    alistLookup (alistInsert l k v) k' = alistLookup l k' := by
  have h' : k ≠ k' := Ne.symm h
  induction l with
  | nil => simp [alistInsert, alistLookup, h']
  | cons p rest ih =>
      by_cases hp : p.1 = k
      · simp [alistInsert, alistLookup, hp, h']
      · simp [alistInsert, alistLookup, hp, ih]

theorem alistLookup_remove_self {α : Type} (l : List (String × α)) (k : String) :
    alistLookup (alistRemove l k) k = none := by
  induction l with
  | nil => rfl
  | cons p rest ih =>
      by_cases h : p.1 = k
      · simpa [alistRemove, List.filter_cons, h] using ih
      · simpa [alistRemove, List.filter_cons, h, alistLookup] using ih

theorem alistInsert_of_absent {α : Type} (l : List (String × α)) (k : String) (v : α)
    (h : alistLookup l k = none) :
    alistInsert l k v = l ++ [(k, v)] := by
  induction l with
  | nil => rfl
  | cons p rest ih =>
      by_cases hp : p.1 = k
      · simp [alistLookup, hp] at h
      · simp [alistLookup, hp] at h
        simp [alistInsert, hp, ih h]

theorem toNat_lowerChar_of_upper {c : Char} (h : 65 ≤ c.toNat ∧ c.toNat ≤ 90) :
    (lowerChar c).toNat = c.toNat + 32 := by
  unfold lowerChar
  rw [dif_pos h]
  rfl

theorem lowerChar_of_not_upper {c : Char} (h : ¬(65 ≤ c.toNat ∧ c.toNat ≤ 90)) :
    lowerChar c = c := by
  unfold lowerChar
  rw [dif_neg h]

theorem lowerChar_idem (c : Char) : lowerChar (lowerChar c) = lowerChar c := by
  by_cases h : 65 ≤ c.toNat ∧ c.toNat ≤ 90
  · have h1 := toNat_lowerChar_of_upper h
    exact lowerChar_of_not_upper (by omega)
  · rw [lowerChar_of_not_upper h, lowerChar_of_not_upper h]

theorem lowerString_idem (s : String) : lowerString (lowerString s) = lowerString s := by
  show String.mk (((String.mk (s.data.map lowerChar)).data).map lowerChar)
      = String.mk (s.data.map lowerChar)
  have hfun : lowerChar ∘ lowerChar = lowerChar := funext lowerChar_idem
  simp [List.map_map, hfun]

theorem normalizeEVMAddress_idem (s : String) :
    normalizeEVMAddress (normalizeEVMAddress s) = normalizeEVMAddress s :=
  lowerString_idem s

/-- C7: loadAccount is idempotent; if the normalized address is already
present in any state the call returns the state unchanged, otherwise it
appends the "loading" sentinel for that address. -/
theorem c7_loadAccount_idempotent (s : AccountState) (addr : String) :
    loadAccount (loadAccount s addr) addr = loadAccount s addr ∧
    loadAccount s addr =
      (match alistLookup s.accountsData (normalizeEVMAddress addr) with
       | some _ => s
       | none => { s with accountsData :=
           s.accountsData ++ [(normalizeEVMAddress addr, AccountEntry.loading)] }) := by
  cases h : alistLookup s.accountsData (normalizeEVMAddress addr) with
  | some e =>
      have h1 : loadAccount s addr = s := by
        simp [loadAccount, h]
      rw [h1]
      exact ⟨h1, rfl⟩
  | none =>
      have h1 : loadAccount s addr =
          { s with accountsData :=
              alistInsert s.accountsData (normalizeEVMAddress addr) .loading } := by
        simp [loadAccount, h]
      constructor
      · rw [h1]
        have h2 : alistLookup (alistInsert s.accountsData (normalizeEVMAddress addr)
              AccountEntry.loading) (normalizeEVMAddress addr) = some .loading :=
          alistLookup_insert_self _ _ _
        simp [loadAccount, h2]
      · rw [h1, alistInsert_of_absent _ _ _ h]

/-- C7 witness: a concrete run of the theorem on a state not yet tracking
the address. -/
theorem c7_witness :
    loadAccount (loadAccount initialState "0xAA") "0xAA" = loadAccount initialState "0xAA" ∧
    loadAccount initialState "0xAA" =
      (match alistLookup initialState.accountsData (normalizeEVMAddress "0xAA") with
       | some _ => initialState
       | none => { initialState with accountsData :=
           initialState.accountsData ++ [(normalizeEVMAddress "0xAA", AccountEntry.loading)] }) :=
  c7_loadAccount_idempotent initialState "0xAA"

/-- C1 counterexample: starting from a state that tracks 0xaa only as the
loading sentinel, deleting it and then pushing a balance update for it
leaves accountsData empty, so no brand-new record is created. -/
theorem c1_counterexample :
    (updateAccountBalance availableDefaultNames
        (deleteAccount testLoadingState "0xaa") [testBalance]).2.accountsData = [] := by
  rfl

/-- C1 (amended): deleteAccount on an address that exists only as the
loading sentinel removes its entry, and a subsequent updateAccountBalance
carrying an AssetBalance for that now-absent address is silently discarded,
leaving the address untracked (no record is created). -/
theorem c1_delete_then_update (pool : List String) (s : AccountState)
    (addr : String) (u : AccountBalance)
    (h : alistLookup s.accountsData (normalizeEVMAddress addr) = some AccountEntry.loading)
    (hu : normalizeEVMAddress u.address = normalizeEVMAddress addr) :
    alistLookup (deleteAccount s addr).accountsData (normalizeEVMAddress addr) = none ∧
    alistLookup ((updateAccountBalance pool (deleteAccount s addr) [u]).2.accountsData)
      (normalizeEVMAddress addr) = none := by
  have hds : deleteAccount s addr =
      { s with accountsData := alistRemove s.accountsData (normalizeEVMAddress addr) } := by
    simp [deleteAccount, normalizeEVMAddress_idem, h]
  have h2 : alistLookup (deleteAccount s addr).accountsData (normalizeEVMAddress addr)
      = none := by
    rw [hds]
    exact alistLookup_remove_self _ _
  refine ⟨h2, ?_⟩
  have hstep : applyBalanceUpdate (pool, deleteAccount s addr) u
      = (pool, deleteAccount s addr) := by
    simp [applyBalanceUpdate, hu, h2]
  show alistLookup (List.foldl applyBalanceUpdate (pool, deleteAccount s addr) [u]).2.accountsData
      (normalizeEVMAddress addr) = none
  rw [List.foldl_cons, List.foldl_nil, hstep]
  exact h2

/-- C1 witness: the amended theorem applied to the concrete loading-only
state for 0xaa. -/
theorem c1_witness :
    alistLookup (deleteAccount testLoadingState "0xaa").accountsData
      (normalizeEVMAddress "0xaa") = none ∧
    alistLookup ((updateAccountBalance availableDefaultNames
        (deleteAccount testLoadingState "0xaa") [testBalance]).2.accountsData)
      (normalizeEVMAddress "0xaa") = none :=
  c1_delete_then_update availableDefaultNames testLoadingState "0xaa" testBalance
    (by rfl) (by rfl)

theorem applyBalanceUpdate_keys (st : List String × AccountState) (u : AccountBalance)
    (κ : String) :
    (alistLookup (applyBalanceUpdate st u).2.accountsData κ).isSome
      = (alistLookup st.2.accountsData κ).isSome := by
  cases h : alistLookup st.2.accountsData (normalizeEVMAddress u.address) with
  | none => simp [applyBalanceUpdate, h]
  | some e =>
      cases e with
      | loading =>
          by_cases hk : κ = normalizeEVMAddress u.address
          · subst hk
            simp [applyBalanceUpdate, h, alistLookup_insert_self]
          · simp [applyBalanceUpdate, h, alistLookup_insert_of_ne _ _ _ _ hk]
      | ready d =>
          by_cases hk : κ = normalizeEVMAddress u.address
          · subst hk
            simp [applyBalanceUpdate, h, alistLookup_insert_self]
          · simp [applyBalanceUpdate, h, alistLookup_insert_of_ne _ _ _ _ hk]

theorem foldl_applyBalanceUpdate_keys (updates : List AccountBalance) :
    ∀ (st : List String × AccountState) (κ : String),
      (alistLookup (updates.foldl applyBalanceUpdate st).2.accountsData κ).isSome
        = (alistLookup st.2.accountsData κ).isSome := by
  induction updates with
  | nil => intro st κ; rfl
  | cons u rest ih =>
      intro st κ
      rw [List.foldl_cons, ih, applyBalanceUpdate_keys]

theorem foldl_applyBalanceUpdate_filter (updates : List AccountBalance) :
    ∀ st : List String × AccountState,
      updates.foldl applyBalanceUpdate st
        = (updates.filter (fun u =>
            (alistLookup st.2.accountsData (normalizeEVMAddress u.address)).isSome)).foldl
            applyBalanceUpdate st := by
  induction updates with
  | nil => intro st; rfl
  | cons u rest ih =>
      intro st
      cases h : (alistLookup st.2.accountsData (normalizeEVMAddress u.address)).isSome with
      | true =>
          have hfilter :
              List.filter (fun x =>
                  (alistLookup st.2.accountsData (normalizeEVMAddress x.address)).isSome)
                (u :: rest)
              = u :: List.filter (fun x =>
                  (alistLookup st.2.accountsData (normalizeEVMAddress x.address)).isSome) rest := by
            simp [List.filter_cons, h]
          have hcongr :
              List.filter (fun x =>
                  (alistLookup (applyBalanceUpdate st u).2.accountsData
                    (normalizeEVMAddress x.address)).isSome) rest
              = List.filter (fun x =>
                  (alistLookup st.2.accountsData (normalizeEVMAddress x.address)).isSome) rest := by
            apply List.filter_congr
            intro x _
            rw [applyBalanceUpdate_keys]
          rw [hfilter, List.foldl_cons, List.foldl_cons,
            ih (applyBalanceUpdate st u), hcongr]
      | false =>
          have hnone : alistLookup st.2.accountsData (normalizeEVMAddress u.address) = none := by
            cases hl : alistLookup st.2.accountsData (normalizeEVMAddress u.address) with
            | none => rfl
            | some e => rw [hl] at h; simp at h
          have hstep : applyBalanceUpdate st u = st := by
            simp [applyBalanceUpdate, hnone]
          have hfilter :
              List.filter (fun x =>
                  (alistLookup st.2.accountsData (normalizeEVMAddress x.address)).isSome)
                (u :: rest)
              = List.filter (fun x =>
                  (alistLookup st.2.accountsData (normalizeEVMAddress x.address)).isSome) rest := by
            simp [List.filter_cons, h]
          rw [hfilter, List.foldl_cons, hstep, ih st]

/-- C10: balance updates whose normalized address is untracked are silently
discarded: the whole reducer result equals the result on the batch with
those updates filtered out, and the reducer never changes which addresses
have entries, so an absent address stays absent (and hence contributes
nothing to the recomputed combined portfolio). -/
theorem c10_untracked_updates_discarded (pool : List String) (s : AccountState)
    (updates : List AccountBalance) :
    updateAccountBalance pool s updates
      = updateAccountBalance pool s (updates.filter (fun u =>
          (alistLookup s.accountsData (normalizeEVMAddress u.address)).isSome)) ∧
    ∀ κ : String,
      (alistLookup (updateAccountBalance pool s updates).2.accountsData κ).isSome
        = (alistLookup s.accountsData κ).isSome := by
  constructor
  · simp only [updateAccountBalance]
    rw [foldl_applyBalanceUpdate_filter updates (pool, s)]
  · intro κ
    exact foldl_applyBalanceUpdate_keys updates (pool, s) κ

theorem getD_eq_get {α : Type} :
    ∀ (l : List α) (i : Nat) (d : α) (h : i < l.length), l.getD i d = l.get ⟨i, h⟩
  | _ :: _, 0, _, _ => rfl
  | _ :: t, i + 1, d, h => getD_eq_get t i d (by simpa using h)

theorem get_cons_eraseIdx_perm {α : Type} :
    ∀ (l : List α) (i : Nat) (h : i < l.length),
      List.Perm (l.get ⟨i, h⟩ :: l.eraseIdx i) l
  | a :: t, 0, _ => by simp
  | a :: t, i + 1, h => by
      have hi : i < t.length := by simpa using h
      have ih := get_cons_eraseIdx_perm t i hi
      have hswap := List.Perm.swap a (t.get ⟨i, hi⟩) (t.eraseIdx i)
      simp only [List.get_cons_succ, List.eraseIdx_cons_succ]
      exact hswap.trans (List.Perm.cons a ih)

theorem newAccountData_index_lt (address : String) (n : Nat) {pool : List String}
    (h : 0 < pool.length) :
    n % pool.length + addressAsNat address % (pool.length - n % pool.length)
      < pool.length := by
  have h1 : n % pool.length < pool.length := Nat.mod_lt _ h
  have h2 : addressAsNat address % (pool.length - n % pool.length)
      < pool.length - n % pool.length := Nat.mod_lt _ (by omega)
  omega

theorem newAccountData_defaultName_get (address : String) (network : Network) (n : Nat)
    (pool : List String) (h : 0 < pool.length) :
    (newAccountData address network n pool).1.defaultName
      = pool.get ⟨n % pool.length + addressAsNat address % (pool.length - n % pool.length),
          newAccountData_index_lt address n h⟩ := by
  simp only [newAccountData]
  exact getD_eq_get pool _ "" (newAccountData_index_lt address n h)

theorem newAccountData_pool_eq (address : String) (network : Network) (n : Nat)
    (pool : List String) (h : 0 < pool.length) :
    (newAccountData address network n pool).2
      = pool.get ⟨n % pool.length + addressAsNat address % (pool.length - n % pool.length),
          newAccountData_index_lt address n h⟩
        :: pool.eraseIdx (n % pool.length
            + addressAsNat address % (pool.length - n % pool.length)) := by
  simp only [newAccountData]
  rw [getD_eq_get pool _ "" (newAccountData_index_lt address n h)]

theorem newAccountData_pool_perm (address : String) (network : Network) (n : Nat)
    (pool : List String) (h : 0 < pool.length) :
    List.Perm (newAccountData address network n pool).2 pool := by
  rw [newAccountData_pool_eq address network n pool h]
  exact get_cons_eraseIdx_perm pool _ (newAccountData_index_lt address n h)

theorem runCreations_perm (reqs : List (String × Network × Nat)) :
    ∀ pool : List String, 0 < pool.length → List.Perm (runCreations pool reqs) pool := by
  induction reqs with
  | nil => intro pool _; exact List.Perm.refl pool
  | cons r rest ih =>
      intro pool h
      have hp := newAccountData_pool_perm r.1 r.2.1 r.2.2 pool h
      have hlen : 0 < (newAccountData r.1 r.2.1 r.2.2 pool).2.length := by
        rw [hp.length_eq]
        exact h
      exact (ih (newAccountData r.1 r.2.1 r.2.2 pool).2 hlen).trans hp

/-- C3: newAccountData selects the name at index
skip + (addressInt mod (poolSize - skip)) with skip = N mod poolSize (an
in-bounds index), removes it from the pool and reinserts it at the front,
and derives the avatar path from the lowercase form of the selected name. -/
theorem c3_newAccountData_formula (pool : List String) (address : String)
    (network : Network) (n : Nat) (h : 0 < pool.length) :
    ∃ hidx : n % pool.length
        + addressAsNat address % (pool.length - n % pool.length) < pool.length,
      (newAccountData address network n pool).1.defaultName
          = pool.get ⟨n % pool.length
              + addressAsNat address % (pool.length - n % pool.length), hidx⟩ ∧
      (newAccountData address network n pool).2
          = pool.get ⟨n % pool.length
              + addressAsNat address % (pool.length - n % pool.length), hidx⟩
            :: pool.eraseIdx (n % pool.length
                + addressAsNat address % (pool.length - n % pool.length)) ∧
      (newAccountData address network n pool).1.defaultAvatar
          = "./images/avatars/"
            ++ lowerString (newAccountData address network n pool).1.defaultName
            ++ "@2x.png" :=
  ⟨newAccountData_index_lt address n h,
   newAccountData_defaultName_get address network n pool h,
   newAccountData_pool_eq address network n pool h,
   rfl⟩

/-- C3 witness: the formula at a concrete pool, address and count. -/
theorem c3_witness :
    ∃ hidx : 3 % availableDefaultNames.length
        + addressAsNat "0x1f" % (availableDefaultNames.length
            - 3 % availableDefaultNames.length) < availableDefaultNames.length,
      (newAccountData "0x1f" testNetwork 3 availableDefaultNames).1.defaultName
          = availableDefaultNames.get ⟨3 % availableDefaultNames.length
              + addressAsNat "0x1f" % (availableDefaultNames.length
                  - 3 % availableDefaultNames.length), hidx⟩ ∧
      (newAccountData "0x1f" testNetwork 3 availableDefaultNames).2
          = availableDefaultNames.get ⟨3 % availableDefaultNames.length
              + addressAsNat "0x1f" % (availableDefaultNames.length
                  - 3 % availableDefaultNames.length), hidx⟩
            :: availableDefaultNames.eraseIdx (3 % availableDefaultNames.length
                + addressAsNat "0x1f" % (availableDefaultNames.length
                    - 3 % availableDefaultNames.length)) ∧
      (newAccountData "0x1f" testNetwork 3 availableDefaultNames).1.defaultAvatar
          = "./images/avatars/"
            ++ lowerString
                (newAccountData "0x1f" testNetwork 3 availableDefaultNames).1.defaultName
            ++ "@2x.png" :=
  c3_newAccountData_formula availableDefaultNames "0x1f" testNetwork 3 (by decide)

/-- C4: any number of account creations leaves the pool with exactly its 8
entries, and the name assigned by one further creation (in particular the
9th from a fresh pool) is one of the original 8 names. -/
theorem c4_pool_length_and_reuse (reqs : List (String × Network × Nat))
    (address : String) (network : Network) (n : Nat) :
    (runCreations availableDefaultNames reqs).length = 8 ∧
    (newAccountData address network n (runCreations availableDefaultNames reqs)).1.defaultName
      ∈ availableDefaultNames := by
  have hperm := runCreations_perm reqs availableDefaultNames (by decide)
  have hlen : (runCreations availableDefaultNames reqs).length = 8 := by
    rw [hperm.length_eq]
    rfl
  refine ⟨hlen, ?_⟩
  have hpos : 0 < (runCreations availableDefaultNames reqs).length := by
    rw [hlen]
    omega
  rw [newAccountData_defaultName_get address network n _ hpos]
  exact hperm.mem_iff.mp (List.get_mem _ _ _)

theorem amountForSymbol_cons (sym : String) (a : AnyAssetAmount)
    (l : List AnyAssetAmount) :
    amountForSymbol sym (a :: l)
      = (if a.asset.symbol = sym then a.amount else 0) + amountForSymbol sym l := by
  by_cases h : a.asset.symbol = sym <;>
    simp [amountForSymbol, List.filter_cons, h]

theorem amountForSymbol_append (sym : String) (l1 l2 : List AnyAssetAmount) :
    amountForSymbol sym (l1 ++ l2)
      = amountForSymbol sym l1 + amountForSymbol sym l2 := by
  simp [amountForSymbol, List.filter_append]

theorem alistLookup_eq_none_of_not_mem {α : Type} :
    ∀ (l : List (String × α)) (k : String),
      k ∉ l.map (fun p => p.1) → alistLookup l k = none := by
  intro l
  induction l with
  | nil => intro k _; rfl
  | cons p rest ih =>
      intro k hk
      simp only [List.map_cons, List.mem_cons] at hk
      push_neg at hk
      have h1 : p.1 ≠ k := fun he => hk.1 he.symm
      simp [alistLookup, h1, ih k hk.2]

theorem mem_alistInsert {α : Type} :
    ∀ (l : List (String × α)) (k : String) (v : α) (q : String × α),
      q ∈ alistInsert l k v → q ∈ l ∨ q = (k, v) := by
  intro l k v
  induction l with
  | nil =>
      intro q hq
      simp [alistInsert] at hq
      exact Or.inr hq
  | cons p rest ih =>
      intro q hq
      by_cases h : p.1 = k
      · simp only [alistInsert, if_pos h, List.mem_cons] at hq
        rcases hq with h1 | h2
        · exact Or.inr h1
        · exact Or.inl (List.mem_cons_of_mem p h2)
      · simp only [alistInsert, if_neg h, List.mem_cons] at hq
        rcases hq with h1 | h2
        · exact Or.inl (by rw [h1]; exact List.mem_cons_self p rest)
        · rcases ih q h2 with h3 | h4
          · exact Or.inl (List.mem_cons_of_mem p h3)
          · exact Or.inr h4

theorem mem_keys_alistInsert {α : Type} (l : List (String × α)) (k : String) (v : α)
    (κ : String) (h : κ ∈ (alistInsert l k v).map (fun p => p.1)) :
    κ ∈ l.map (fun p => p.1) ∨ κ = k := by
  rw [List.mem_map] at h
  obtain ⟨q, hq, hqk⟩ := h
  rcases mem_alistInsert l k v q hq with h1 | h2
  · exact Or.inl (by rw [← hqk]; exact List.mem_map_of_mem _ h1)
  · exact Or.inr (by rw [← hqk, h2])

theorem alistInsert_keys_nodup {α : Type} :
    ∀ (l : List (String × α)) (k : String) (v : α),
      (l.map (fun p => p.1)).Nodup → ((alistInsert l k v).map (fun p => p.1)).Nodup := by
  intro l k v
  induction l with
  | nil => intro _; simp [alistInsert]
  | cons p rest ih =>
      intro hnodup
      rw [List.map_cons] at hnodup
      have hn := List.nodup_cons.mp hnodup
      by_cases h : p.1 = k
      · simp only [alistInsert, if_pos h, List.map_cons]
        rw [List.nodup_cons]
        exact ⟨by rw [← h]; exact hn.1, hn.2⟩
      · simp only [alistInsert, if_neg h, List.map_cons]
        rw [List.nodup_cons]
        refine ⟨?_, ih hn.2⟩
        intro hmem
        rcases mem_keys_alistInsert rest k v p.1 hmem with h1 | h2
        · exact hn.1 h1
        · exact h h2

theorem amountForSymbol_values_absent (sym : String) :
    ∀ acc : List (String × AnyAssetAmount),
      (∀ p ∈ acc, p.2.asset.symbol = p.1) → sym ∉ acc.map (fun p => p.1) →
      amountForSymbol sym (acc.map (fun p => p.2)) = 0 := by
  intro acc
  induction acc with
  | nil => intro _ _; rfl
  | cons p rest ih =>
      intro hsym hmem
      simp only [List.map_cons, List.mem_cons] at hmem
      push_neg at hmem
      have hp : p.2.asset.symbol ≠ sym := by
        rw [hsym p (List.mem_cons_self p rest)]
        exact fun he => hmem.1 he.symm
      rw [List.map_cons, amountForSymbol_cons, if_neg hp,
        ih (fun q hq => hsym q (List.mem_cons_of_mem p hq)) hmem.2]
      simp

theorem amountForSymbol_values (sym : String) :
    ∀ acc : List (String × AnyAssetAmount),
      (∀ p ∈ acc, p.2.asset.symbol = p.1) → (acc.map (fun p => p.1)).Nodup →
      amountForSymbol sym (acc.map (fun p => p.2)) = accAmount acc sym := by
  intro acc
  induction acc with
  | nil => intro _ _; rfl
  | cons p rest ih =>
      intro hsym hnodup
      rw [List.map_cons] at hnodup
      have hn := List.nodup_cons.mp hnodup
      have hp := hsym p (List.mem_cons_self p rest)
      rw [List.map_cons, amountForSymbol_cons]
      by_cases h : p.1 = sym
      · have habs : sym ∉ rest.map (fun p => p.1) := by
          rw [← h]
          exact hn.1
        rw [amountForSymbol_values_absent sym rest
            (fun q hq => hsym q (List.mem_cons_of_mem p hq)) habs,
          if_pos (by rw [hp, h])]
        simp [accAmount, alistLookup, h]
      · rw [if_neg (by rw [hp]; exact h),
          ih (fun q hq => hsym q (List.mem_cons_of_mem p hq)) hn.2]
        simp [accAmount, alistLookup, h]

theorem foldl_groupStep_inv (l : List AnyAssetAmount) :
    ∀ acc : List (String × AnyAssetAmount),
      (acc.map (fun p => p.1)).Nodup → (∀ p ∈ acc, p.2.asset.symbol = p.1) →
      ((l.foldl groupStep acc).map (fun p => p.1)).Nodup ∧
        ∀ p ∈ l.foldl groupStep acc, p.2.asset.symbol = p.1 := by
  induction l with
  | nil => intro acc h1 h2; exact ⟨h1, h2⟩
  | cons a rest ih =>
      intro acc h1 h2
      rw [List.foldl_cons]
      apply ih
      · exact alistInsert_keys_nodup _ _ _ h1
      · intro p hp
        simp only [groupStep] at hp
        rcases mem_alistInsert _ _ _ p hp with hm | he
        · exact h2 p hm
        · rw [he]

theorem accAmount_groupStep (acc : List (String × AnyAssetAmount))
    (a : AnyAssetAmount) (sym : String) :
    accAmount (groupStep acc a) sym
      = if a.asset.symbol = sym then accAmount acc sym + a.amount
        else accAmount acc sym := by
  by_cases h : a.asset.symbol = sym
  · subst h
    cases hl : alistLookup acc a.asset.symbol with
    | none => simp [accAmount, groupStep, alistLookup_insert_self, hl]
    | some e => simp [accAmount, groupStep, alistLookup_insert_self, hl]
  · have h' : sym ≠ a.asset.symbol := Ne.symm h
    simp [accAmount, groupStep, alistLookup_insert_of_ne _ _ _ _ h', h]

theorem accAmount_foldl (l : List AnyAssetAmount) :
    ∀ (acc : List (String × AnyAssetAmount)) (sym : String),
      accAmount (l.foldl groupStep acc) sym
        = accAmount acc sym + amountForSymbol sym l := by
  induction l with
  | nil => intro acc sym; simp [amountForSymbol]
  | cons a rest ih =>
      intro acc sym
      rw [List.foldl_cons, ih, accAmount_groupStep, amountForSymbol_cons]
      by_cases h : a.asset.symbol = sym
      · rw [if_pos h, if_pos h]; ring
      · rw [if_neg h, if_neg h]; ring

theorem amountForSymbol_combine (sym : String) (l : List AnyAssetAmount) :
    amountForSymbol sym (combineAssetAmounts l) = amountForSymbol sym l := by
  have hinv := foldl_groupStep_inv l [] (by simp) (by simp)
  have hval := amountForSymbol_values sym (l.foldl groupStep []) hinv.2 hinv.1
  show amountForSymbol sym ((l.foldl groupStep []).map (fun p => p.2))
      = amountForSymbol sym l
  rw [hval, accAmount_foldl]
  simp [accAmount, alistLookup]

theorem combinedAccountBalances_cons (p : String × AccountEntry)
    (rest : List (String × AccountEntry)) :
    combinedAccountBalances (p :: rest)
      = (match p.2 with
         | .loading => []
         | .ready ad => ad.balances.map (fun b => b.2.assetAmount))
        ++ combinedAccountBalances rest := by
  simp [combinedAccountBalances]

theorem amountForSymbol_flat (sym : String) :
    ∀ accountsData : List (String × AccountEntry),
      amountForSymbol sym (combinedAccountBalances accountsData)
        = (accountsData.map (fun p => entryAmountForSymbol sym p.2)).sum := by
  intro accountsData
  induction accountsData with
  | nil => rfl
  | cons p rest ih =>
      rw [combinedAccountBalances_cons, amountForSymbol_append, List.map_cons,
        List.sum_cons, ih]
      cases hp : p.2 with
      | loading => simp [entryAmountForSymbol, amountForSymbol]
      | ready ad => simp [entryAmountForSymbol]

/-- C2: after any updateAccountBalance call, for every asset symbol the
amount recorded in the combined portfolio equals the integer sum of that
symbol's balance amounts over all non-loading account records, with nothing
double-counted. -/
theorem c2_combined_equals_account_sums (pool : List String) (s : AccountState)
    (updates : List AccountBalance) (sym : String) :
    amountForSymbol sym (updateAccountBalance pool s updates).2.combinedData.assets
      = (((updateAccountBalance pool s updates).2.accountsData).map
          (fun p => entryAmountForSymbol sym p.2)).sum := by
  show amountForSymbol sym
      (combineAssetAmounts (combinedAccountBalances
        (updates.foldl applyBalanceUpdate (pool, s)).2.accountsData))
      = (((updates.foldl applyBalanceUpdate (pool, s)).2.accountsData).map
          (fun p => entryAmountForSymbol sym p.2)).sum
  rw [amountForSymbol_combine, amountForSymbol_flat]

theorem newAccountData_ens (address : String) (network : Network) (n : Nat)
    (pool : List String) :
    (newAccountData address network n pool).1.ens = ⟨none, none⟩ :=
  rfl

theorem applyBalanceUpdate_identity (st : List String × AccountState)
    (u : AccountBalance) (k : String) (x : String × String)
    (h : entryIdentity (alistLookup st.2.accountsData k) = some x) :
    entryIdentity (alistLookup (applyBalanceUpdate st u).2.accountsData k) = some x := by
  cases hl : alistLookup st.2.accountsData (normalizeEVMAddress u.address) with
  | none => simpa [applyBalanceUpdate, hl] using h
  | some e =>
      cases e with
      | loading =>
          by_cases hk : k = normalizeEVMAddress u.address
          · rw [hk, hl] at h
            simp [entryIdentity] at h
          · simpa [applyBalanceUpdate, hl,
              alistLookup_insert_of_ne _ _ _ _ hk] using h
      | ready d =>
          by_cases hk : k = normalizeEVMAddress u.address
          · subst hk
            rw [hl] at h
            have hx : some (d.defaultName, d.defaultAvatar) = some x := h
            simp [applyBalanceUpdate, hl, alistLookup_insert_self, entryIdentity,
              ← Option.some.inj hx]
          · simpa [applyBalanceUpdate, hl,
              alistLookup_insert_of_ne _ _ _ _ hk] using h

theorem foldl_applyBalanceUpdate_identity (updates : List AccountBalance) :
    ∀ (st : List String × AccountState) (k : String) (x : String × String),
      entryIdentity (alistLookup st.2.accountsData k) = some x →
      entryIdentity (alistLookup (updates.foldl applyBalanceUpdate st).2.accountsData k)
        = some x := by
  induction updates with
  | nil => intro st k x h; exact h
  | cons u rest ih =>
      intro st k x h
      exact ih _ _ _ (applyBalanceUpdate_identity st u k x h)

/-- C9: for a record that already exists (is not the loading sentinel), every
slice operation leaves its generated defaultName and defaultAvatar unchanged. -/
theorem c9_identity_immutable (pool : List String) (s : AccountState) (k : String)
    (d : AccountData) (updates : List AccountBalance) (a1 a2 a3 : String)
    (nw1 nw2 : Network) (nm av : String)
    (h : alistLookup s.accountsData k = some (AccountEntry.ready d)) :
    entryIdentity (alistLookup (updateAccountBalance pool s updates).2.accountsData k)
        = some (d.defaultName, d.defaultAvatar) ∧
    entryIdentity (alistLookup (updateAccountName pool s a1 nw1 nm).2.accountsData k)
        = some (d.defaultName, d.defaultAvatar) ∧
    entryIdentity (alistLookup (updateENSAvatar pool s a2 nw2 av).2.accountsData k)
        = some (d.defaultName, d.defaultAvatar) ∧
    entryIdentity (alistLookup (loadAccount s a3).accountsData k)
        = some (d.defaultName, d.defaultAvatar) := by
  have hid : entryIdentity (alistLookup s.accountsData k)
      = some (d.defaultName, d.defaultAvatar) := by
    rw [h]
    rfl
  refine ⟨?_, ?_, ?_, ?_⟩
  · exact foldl_applyBalanceUpdate_identity updates (pool, s) k _ hid
  · cases hl : alistLookup s.accountsData (normalizeEVMAddress a1) with
    | none => simpa [updateAccountName, hl] using hid
    | some e =>
        by_cases hk : k = normalizeEVMAddress a1
        · have he : e = .ready d := by
            rw [hk, hl] at h
            exact Option.some.inj h
          subst he
          subst hk
          simp [updateAccountName, hl, getOrCreateAccountData,
            alistLookup_insert_self, entryIdentity]
        · simpa [updateAccountName, hl,
            alistLookup_insert_of_ne _ _ _ _ hk] using hid
  · cases hl : alistLookup s.accountsData (normalizeEVMAddress a2) with
    | none => simpa [updateENSAvatar, hl] using hid
    | some e =>
        by_cases hk : k = normalizeEVMAddress a2
        · have he : e = .ready d := by
            rw [hk, hl] at h
            exact Option.some.inj h
          subst he
          subst hk
          simp [updateENSAvatar, hl, getOrCreateAccountData,
            alistLookup_insert_self, entryIdentity]
        · simpa [updateENSAvatar, hl,
            alistLookup_insert_of_ne _ _ _ _ hk] using hid
  · cases hl : alistLookup s.accountsData (normalizeEVMAddress a3) with
    | some e => simpa [loadAccount, hl] using hid
    | none =>
        have hk : k ≠ normalizeEVMAddress a3 := by
          intro he
          rw [he, hl] at h
          exact Option.noConfusion h
        simpa [loadAccount, hl, alistLookup_insert_of_ne _ _ _ _ hk] using hid

/-- C9 witness: the theorem at a concrete one-record state, with a balance
update, both ENS updates and a load targeting concrete addresses. -/
theorem c9_witness :
    entryIdentity (alistLookup (updateAccountBalance availableDefaultNames testReadyState
        [testBalance]).2.accountsData "0xaa")
        = some (testReadyData.defaultName, testReadyData.defaultAvatar) ∧
    entryIdentity (alistLookup (updateAccountName availableDefaultNames testReadyState
        "0xaa" testNetwork "vault.eth").2.accountsData "0xaa")
        = some (testReadyData.defaultName, testReadyData.defaultAvatar) ∧
    entryIdentity (alistLookup (updateENSAvatar availableDefaultNames testReadyState
        "0xbb" testNetwork "https://example.invalid/a.png").2.accountsData "0xaa")
        = some (testReadyData.defaultName, testReadyData.defaultAvatar) ∧
    entryIdentity (alistLookup (loadAccount testReadyState "0xcc").accountsData "0xaa")
        = some (testReadyData.defaultName, testReadyData.defaultAvatar) :=
  c9_identity_immutable availableDefaultNames testReadyState "0xaa" testReadyData
    [testBalance] "0xaa" "0xbb" "0xcc" testNetwork testNetwork "vault.eth"
    "https://example.invalid/a.png" (by rfl)

/-- C8: the ENS name and avatar reducers leave the state unchanged when the
normalized address is untracked; on a loading entry they materialize a full
record through newAccountData (the identity-generation path shared with
balance updates, with the same existing-account count) and attach the ENS
field; on an existing record they just attach the field. -/
theorem c8_ens_attach (pool : List String) (s : AccountState) (addr : String)
    (nw : Network) (nm av : String) :
    match alistLookup s.accountsData (normalizeEVMAddress addr) with
    | none =>
        updateAccountName pool s addr nw nm = (pool, s) ∧
        updateENSAvatar pool s addr nw av = (pool, s)
    | some AccountEntry.loading =>
        updateAccountName pool s addr nw nm = ((newAccountData (normalizeEVMAddress addr) nw (alistRemove s.accountsData (normalizeEVMAddress addr)).length pool).2, { s with accountsData := alistInsert s.accountsData (normalizeEVMAddress addr) (AccountEntry.ready { (newAccountData (normalizeEVMAddress addr) nw (alistRemove s.accountsData (normalizeEVMAddress addr)).length pool).1 with ens := { name := some nm, avatarURL := none } }) }) ∧
        updateENSAvatar pool s addr nw av = ((newAccountData (normalizeEVMAddress addr) nw (alistRemove s.accountsData (normalizeEVMAddress addr)).length pool).2, { s with accountsData := alistInsert s.accountsData (normalizeEVMAddress addr) (AccountEntry.ready { (newAccountData (normalizeEVMAddress addr) nw (alistRemove s.accountsData (normalizeEVMAddress addr)).length pool).1 with ens := { name := none, avatarURL := some av } }) })
    | some (AccountEntry.ready d) =>
        updateAccountName pool s addr nw nm = (pool, { s with accountsData := alistInsert s.accountsData (normalizeEVMAddress addr) (AccountEntry.ready { d with ens := { d.ens with name := some nm } }) }) ∧
        updateENSAvatar pool s addr nw av = (pool, { s with accountsData := alistInsert s.accountsData (normalizeEVMAddress addr) (AccountEntry.ready { d with ens := { d.ens with avatarURL := some av } }) }) := by
  cases hl : alistLookup s.accountsData (normalizeEVMAddress addr) with
  | none =>
      exact ⟨by simp [updateAccountName, hl], by simp [updateENSAvatar, hl]⟩
  | some e =>
      cases e with
      | loading =>
          constructor
          · simp [updateAccountName, hl, getOrCreateAccountData, newAccountData_ens]
          · simp [updateENSAvatar, hl, getOrCreateAccountData, newAccountData_ens]
      | ready d =>
          constructor
          · simp [updateAccountName, hl, getOrCreateAccountData]
          · simp [updateENSAvatar, hl, getOrCreateAccountData]

theorem filterMap_id_map {α β : Type} (f : α → Option β) (l : List α) :
    (l.map f).filterMap id = l.filterMap f := by
  induction l with
  | nil => rfl
  | cons a t ih => cases h : f a <;> simp [List.filterMap_cons, h, ih]

/-- C5: the log parser is the per-log best-effort decode mapped over the
input with failures dropped in place: its output is exactly the filterMap of
the specification-side per-log record over the input, so output order
follows input order, failed logs are simply absent (no placeholder), and no
error escapes (the embedding is a total function). -/
theorem c5_parse_logs_filter (decode : String → List String → Option DecodedTransferEvent)
    (logs : List EVMLog) :
    parseLogsForERC20Transfers decode logs
      = logs.filterMap (transferRecordFor decode) := by
  show (logs.map (transferRecordFor decode)).filterMap id
      = logs.filterMap (transferRecordFor decode)
  exact filterMap_id_map (transferRecordFor decode) logs

theorem findSome?_isSome_iff {α β : Type} (f : α → Option β) :
    ∀ l : List α, (l.findSome? f).isSome = true ↔ ∃ a ∈ l, (f a).isSome = true := by
  intro l
  induction l with
  | nil => simp [List.findSome?]
  | cons a t ih =>
      cases h : f a with
      | none => simp [List.findSome?_cons, h, ih]
      | some b => simp [List.findSome?_cons, h]

/-- C6 counterexample: call data whose only decodable match is the ERC-2612
permit fragment decodes under the combined ERC-2612 interface but
parseERC20Tx returns none for it, because parseERC20Tx consults
ERC20_INTERFACE only. -/
theorem c6_counterexample :
    parseTransaction ERC2612_INTERFACE permitOnlyDecoder "0xd505accf"
      = some ⟨"permit"⟩ ∧
    parseERC20Tx permitOnlyDecoder "0xd505accf" = none :=
  ⟨rfl, rfl⟩

/-- C6 (amended): parseERC20Tx decodes call data against the plain ERC-20
interface only (the ERC-2612 permit extension is defined but not consulted):
it returns a TransactionDescription exactly when some ERC-20 function
fragment decodes the data, and is absent on any decode failure. -/
theorem c6_parseERC20Tx_erc20_only
    (tryFragment : String → String → Option TransactionDescription)
    (input : String) :
    (parseERC20Tx tryFragment input).isSome = true
      ↔ ∃ sig ∈ interfaceFunctions ERC20_INTERFACE,
          (tryFragment sig input).isSome = true :=
  findSome?_isSome_iff (fun sig => tryFragment sig input)
    (interfaceFunctions ERC20_INTERFACE)

end Tally
